import Mathlib

/-!
Shallow embedding of the yokan/rkv key-set backends (src/src/backends/set.cpp,
src/src/backends/unordered_set.cpp, src/src/backends/tkrzw.cpp) and of the
key-copy helper (src/src/common/modes.hpp), together with proofs checking the
natural-language specification against them.

Keys and buffers are byte strings, modelled as `List Nat`. Sizes are `size_t`
values, modelled as `Nat` (with explicit mod 2^64 where the C code can wrap).
The ordered set backend's `std::set` is modelled as a list kept strictly
sorted by the comparator; its operations (`find`, `emplace`, `erase`,
`lower_bound`, `upper_bound`) are modelled directly on that list.
-/

namespace Yokan

/-- Keys are opaque byte strings (src: key_type over char). -/
abbrev Key := List Nat

/-- Flat byte buffers (src: UserMem). -/
abbrev Bytes := List Nat

/-- Return statuses used by the backend verbs (src: yokan Status). -/
inductive Status where
  | OK
  | InvalidArg
  | NotFound
  | KeyExists
  | TimedOut
  deriving DecidableEq, Repr

/-- Mode bit YOKAN_MODE_INCLUSIVE (spec 6.2: 1 <<< 0). -/
def modeInclusive : Nat := 1
/-- Mode bit YOKAN_MODE_APPEND (1 <<< 1). -/
def modeAppend : Nat := 2
/-- Mode bit YOKAN_MODE_CONSUME (1 <<< 2). -/
def modeConsume : Nat := 4
/-- Mode bit YOKAN_MODE_WAIT (1 <<< 3). -/
def modeWait : Nat := 8
/-- Mode bit YOKAN_MODE_NOTIFY (1 <<< 4). -/
def modeNotify : Nat := 16
/-- Mode bit YOKAN_MODE_NEW_ONLY (1 <<< 5). -/
def modeNewOnly : Nat := 32
/-- Mode bit YOKAN_MODE_EXIST_ONLY (1 <<< 6). -/
def modeExistOnly : Nat := 64
/-- Mode bit YOKAN_MODE_NO_PREFIX (1 <<< 7). -/
def modeNoPre : Nat := 128
/-- Mode bit YOKAN_MODE_IGNORE_KEYS (1 <<< 8). -/
def modeIgnoreKeys : Nat := 256
/-- Mode bit YOKAN_MODE_KEEP_LAST (1 <<< 9). -/
def modeKeepLast : Nat := 512
/-- Mode bit YOKAN_MODE_SUFFIX (1 <<< 10). -/
def modeSfx : Nat := 1024

/-- Bit test `mode & bit` used as a C truth value. -/
def hasMode (mode bit : Nat) : Bool := (mode &&& bit) != 0

/-- Sentinel RKV_KEY_NOT_FOUND = ULLONG_MAX (include/rkv/rkv-common.h:58). -/
def KEY_NOT_FOUND : Nat := 2 ^ 64 - 1
/-- Sentinel RKV_SIZE_TOO_SMALL = ULLONG_MAX - 1 (include/rkv/rkv-common.h:59). -/
def SIZE_TOO_SMALL : Nat := 2 ^ 64 - 2
/-- Sentinel RKV_NO_MORE_KEYS = ULLONG_MAX - 2 (include/rkv/rkv-common.h:60). -/
def NO_MORE_KEYS : Nat := 2 ^ 64 - 3

/-- Sum of a size array (src: std::accumulate over ksizes / vsizes). -/
def sumList : List Nat → Nat
  | [] => 0
  | s :: rest => s + sumList rest

/-- UserMem slice `{ buf.data + off, len }`: the `len` bytes of `buf`
starting at offset `off`. -/
def slice (buf : Bytes) (off len : Nat) : Bytes := (buf.drop off).take len

/-- Truncating size_t subtraction `a - b` (mod 2^64), for operands below 2^64. -/
def sub64 (a b : Nat) : Nat := (a + 2 ^ 64 - b) % 2 ^ 64

/-- Flatten a list of byte strings into one buffer. -/
def flat : List Bytes → Bytes
  | [] => []
  | b :: rest => b ++ flat rest

/-! ## The default comparator (set.cpp:28-36, SetDatabaseCompare::DefaultMemCmp) -/

/-- Result of std::memcmp over the common length of two byte strings. -/
def memCmpMin : List Nat → List Nat → Ordering
  | [], _ => Ordering.eq
  | _ :: _, [] => Ordering.eq
  | a :: as, b :: bs =>
    if a < b then Ordering.lt
    else if b < a then Ordering.gt
    else memCmpMin as bs

/-- DefaultMemCmp (set.cpp:28-36): memcmp over the common length, with
shorter-first tiebreak. Returns true iff lhs sorts strictly before rhs. -/
def DefaultMemCmp (lhs rhs : Key) : Bool :=
  match memCmpMin lhs rhs with
  | Ordering.lt => true
  | Ordering.gt => false
  | Ordering.eq => lhs.length < rhs.length

/-- Comparator equivalence: neither strictly before the other. This is what
std::set uses to decide that a probe key matches a stored key. -/
def eqvKey (a b : Key) : Bool := !DefaultMemCmp a b && !DefaultMemCmp b a

/-! ## std::set operations as used by SetDatabase (m_db is a
std::set<key_type, SetDatabaseCompare>) -/

/-- m_db->find(key) != m_db->end(): membership up to comparator equivalence. -/
def setFind (db : List Key) (k : Key) : Bool := db.any (fun x => eqvKey x k)

/-- m_db->emplace(...): sorted insertion, no-op when an equivalent key is
already present. -/
def setInsert : List Key → Key → List Key
  | [], k => [k]
  | x :: xs, k =>
    if DefaultMemCmp k x then k :: x :: xs
    else if DefaultMemCmp x k then x :: setInsert xs k
    else x :: xs

/-- m_db->erase(it) where `it = m_db->find(k)`: removes the first (unique,
given sortedness) element equivalent to `k`; no-op when absent. -/
def setEraseK : List Key → Key → List Key
  | [], _ => []
  | x :: xs, k => if eqvKey x k then xs else x :: setEraseK xs k

/-- m_db->lower_bound(k) on the sorted list: the suffix starting at the first
element not strictly before `k`. -/
def lowerBound (db : List Key) (k : Key) : List Key :=
  db.dropWhile (fun x => DefaultMemCmp x k)

/-- m_db->upper_bound(k) on the sorted list: the suffix starting at the first
element strictly after `k`. -/
def upperBound (db : List Key) (k : Key) : List Key :=
  db.dropWhile (fun x => !DefaultMemCmp k x)

/-! ## SetDatabase::put (set.cpp:250-298) -/

/-- Store loop of SetDatabase::put (set.cpp:290-296). For each batch element
it emplaces the slice at the running offset, then advances the offset, and
only then — with the already advanced offset — builds the key passed to
`m_watcher.notifyKey` when NOTIFY is set. The returned pair is the new
database and the list of byte strings handed to notifyKey, in order. -/
def setPutLoop (db : List Key) (keys : Bytes) (notify : Bool) :
    List Nat → Nat → List Key × List Key
  | [], _ => (db, [])
  | s :: rest, off =>
    let db1 := setInsert db (slice keys off s)
    let off1 := off + s
    let note := if notify then [slice keys off1 s] else []
    let (db2, more) := setPutLoop db1 keys notify rest off1
    (db2, note ++ more)

/-- SetDatabase::put (set.cpp:250-298). Arguments mirror the C signature;
`vals` is the value buffer. Returns the status, the new database, and the
list of byte strings passed to the watcher's notifyKey. -/
def setPut (db : List Key) (mode : Nat) (keys : Bytes) (ksizes : List Nat)
    (vals : Bytes) (vsizes : List Nat) : Status × List Key × List Key :=
  if ksizes.length != vsizes.length then (Status.InvalidArg, db, [])
  else if vals.length != 0 then (Status.InvalidArg, db, [])
  else if sumList ksizes > keys.length then (Status.InvalidArg, db, [])
  else if sumList vsizes != 0 then (Status.InvalidArg, db, [])
  else if hasMode mode modeExistOnly then
    if ksizes.length == 1 && !setFind db (slice keys 0 (ksizes.headD 0)) then
      (Status.NotFound, db, [])
    else (Status.OK, db, [])
  else if hasMode mode modeNewOnly && ksizes.length == 1 &&
          setFind db (slice keys 0 (ksizes.headD 0)) then
    (Status.KeyExists, db, [])
  else
    let (db1, notes) := setPutLoop db keys (hasMode mode modeNotify) ksizes 0
    (Status.OK, db1, notes)

/-! ## SetDatabase::erase (set.cpp:341-366), non-WAIT path -/

/-- Loop of SetDatabase::erase (set.cpp:346-364) for a mode without WAIT:
per element, first the offset bound is checked (returning InvalidArg with the
erasures already performed kept), then the key is looked up and removed if
present. -/
def setEraseLoop (db : List Key) (keys : Bytes) :
    List Nat → Nat → Status × List Key
  | [], _ => (Status.OK, db)
  | s :: rest, off =>
    if off + s > keys.length then (Status.InvalidArg, db)
    else
      let k := slice keys off s
      let db1 := if setFind db k then setEraseK db k else db
      setEraseLoop db1 keys rest (off + s)

/-- SetDatabase::erase (set.cpp:341-366) for a mode without WAIT. -/
def setErase (db : List Key) (keys : Bytes) (ksizes : List Nat) :
    Status × List Key :=
  setEraseLoop db keys ksizes 0

/-! ## UnorderedSetDatabase (unordered_set.cpp). The hash set compares keys
with std::equal_to, i.e. plain byte equality; the model is a list of keys
with no ordering maintained. -/

/-- m_db->find(key) != m_db->end() for the unordered backend: plain
byte-equality membership. -/
def usetFind (db : List Key) (k : Key) : Bool := db.contains k

/-- m_db->emplace for the unordered backend: inserts when absent. -/
def usetInsert (db : List Key) (k : Key) : List Key :=
  if usetFind db k then db else db ++ [k]

/-- Loop of UnorderedSetDatabase::erase (unordered_set.cpp:279-287): per
element, the offset bound check, then lookup and removal of the (byte-equal)
key if present. -/
def usetEraseLoop (db : List Key) (keys : Bytes) :
    List Nat → Nat → Status × List Key
  | [], _ => (Status.OK, db)
  | s :: rest, off =>
    if off + s > keys.length then (Status.InvalidArg, db)
    else
      let k := slice keys off s
      let db1 := if usetFind db k then db.erase k else db
      usetEraseLoop db1 keys rest (off + s)

/-- UnorderedSetDatabase::erase (unordered_set.cpp:273-289). -/
def usetErase (db : List Key) (keys : Bytes) (ksizes : List Nat) :
    Status × List Key :=
  usetEraseLoop db keys ksizes 0

/-- Store loop of UnorderedSetDatabase::put (unordered_set.cpp:235-241). -/
def usetPutLoop (keys : Bytes) : List Nat → List Key → Nat → List Key
  | [], db, _ => db
  | s :: rest, db, off =>
    usetPutLoop keys rest (usetInsert db (slice keys off s)) (off + s)

/-- UnorderedSetDatabase::put (unordered_set.cpp:202-242). The value buffer
is ignored by the code (`(void)vals`), so it is not a parameter; only the
value sizes are checked (their total must be 0). -/
def usetPut (db : List Key) (mode : Nat) (keys : Bytes)
    (ksizes vsizes : List Nat) : Status × List Key :=
  if ksizes.length != vsizes.length then (Status.InvalidArg, db)
  else if sumList ksizes > keys.length then (Status.InvalidArg, db)
  else if sumList vsizes > 0 then (Status.InvalidArg, db)
  else if hasMode mode modeExistOnly then
    if ksizes.length == 1 && !usetFind db (slice keys 0 (ksizes.headD 0)) then
      (Status.NotFound, db)
    else (Status.OK, db)
  else if hasMode mode modeNewOnly && ksizes.length == 1 &&
          usetFind db (slice keys 0 (ksizes.headD 0)) then
    (Status.KeyExists, db)
  else (Status.OK, usetPutLoop keys ksizes db 0)

/-- Result of the tkrzw DBM primitives used by TkrzwDatabase::put: Set
either succeeds or reports DUPLICATION_ERROR. -/
inductive TkStatus where
  | OK
  | Duplication
  deriving DecidableEq, Repr

/-- tkrzw DBM::Set(key, value, overwrite): stores the record; when overwrite
is false and the key already exists, the record is left untouched and
DUPLICATION_ERROR is returned. The DBM is modelled as a map from keys to
value byte strings. -/
def tkrzwSet (dbm : Key → Option Bytes) (k : Key) (v : Bytes)
    (overwrite : Bool) : TkStatus × (Key → Option Bytes) :=
  match dbm k with
  | some _ =>
    if overwrite then (TkStatus.OK, fun x => if x == k then some v else dbm x)
    else (TkStatus.Duplication, dbm)
  | none => (TkStatus.OK, fun x => if x == k then some v else dbm x)

/-- tkrzw DBM::Append(key, value): concatenates to the existing value, or
stores the value when the key is absent. Always succeeds. -/
def tkrzwAppend (dbm : Key → Option Bytes) (k : Key) (v : Bytes) :
    Key → Option Bytes :=
  match dbm k with
  | some old => fun x => if x == k then some (old ++ v) else dbm x
  | none => fun x => if x == k then some v else dbm x

/-- Loop of TkrzwDatabase::put (tkrzw.cpp:409-427): per batch element, Append
when APPEND is set, otherwise Set with overwrite = !NEW_ONLY; a
DUPLICATION_ERROR is turned into KEY_EXISTS only when NEW_ONLY is set and
the original batch holds exactly one key (`single`), and is swallowed
otherwise. The sizes are consumed pairwise; the arm with exhausted value
sizes is unreachable after the length check of tkrzwPut. -/
def tkrzwPutLoop (mapp mnew single : Bool) (keys vals : Bytes) :
    List Nat → List Nat → (Key → Option Bytes) → Nat → Nat →
    Status × (Key → Option Bytes)
  | [], _, dbm, _, _ => (Status.OK, dbm)
  | _ :: _, [], dbm, _, _ => (Status.OK, dbm)
  | s :: krest, vs :: vrest, dbm, koff, voff =>
    if mapp then
      tkrzwPutLoop mapp mnew single keys vals krest vrest
        (tkrzwAppend dbm (slice keys koff s) (slice vals voff vs))
        (koff + s) (voff + vs)
    else
      let r := tkrzwSet dbm (slice keys koff s) (slice vals voff vs) (!mnew)
      if r.1 == TkStatus.Duplication && mnew && single then
        (Status.KeyExists, r.2)
      else
        tkrzwPutLoop mapp mnew single keys vals krest vrest r.2
          (koff + s) (voff + vs)

/-- TkrzwDatabase::put (tkrzw.cpp:384-429). EXIST_ONLY is never consulted. -/
def tkrzwPut (dbm : Key → Option Bytes) (mode : Nat) (keys : Bytes)
    (ksizes : List Nat) (vals : Bytes) (vsizes : List Nat) :
    Status × (Key → Option Bytes) :=
  if ksizes.length != vsizes.length then (Status.InvalidArg, dbm)
  else if sumList ksizes > keys.length then (Status.InvalidArg, dbm)
  else if sumList vsizes > vals.length then (Status.InvalidArg, dbm)
  else
    tkrzwPutLoop (hasMode mode modeAppend) (hasMode mode modeNewOnly)
      (ksizes.length == 1) keys vals ksizes vsizes dbm 0 0

/-- Unconditional batch store (the plain-put semantics of the tkrzw loop):
each record is written, overwriting existing values. -/
def tkrzwStoreAll (keys vals : Bytes) :
    List Nat → List Nat → (Key → Option Bytes) → Nat → Nat →
    Key → Option Bytes
  | [], _, dbm, _, _ => dbm
  | _ :: _, [], dbm, _, _ => dbm
  | s :: krest, vs :: vrest, dbm, koff, voff =>
    tkrzwStoreAll keys vals krest vrest
      (fun x => if x == slice keys koff s then some (slice vals voff vs)
                else dbm x)
      (koff + s) (voff + vs)

/-- Insert-if-absent batch store (the NEW_ONLY multi-key semantics of the
tkrzw loop): records for already-present keys are skipped, so the old
values are kept. -/
def tkrzwInsertNew (keys vals : Bytes) :
    List Nat → List Nat → (Key → Option Bytes) → Nat → Nat →
    Key → Option Bytes
  | [], _, dbm, _, _ => dbm
  | _ :: _, [], dbm, _, _ => dbm
  | s :: krest, vs :: vrest, dbm, koff, voff =>
    tkrzwInsertNew keys vals krest vrest
      (match dbm (slice keys koff s) with
       | some _ => dbm
       | none => fun x => if x == slice keys koff s then
                   some (slice vals voff vs) else dbm x)
      (koff + s) (voff + vs)

/-- Per-element offset checks of the erase loop (set.cpp:348): true iff every
element of the batch passes its `offset + ksizes[i] > keys.size` bound. -/
def checksOK (keysLen : Nat) : List Nat → Nat → Bool
  | [], _ => true
  | s :: rest, off =>
    if off + s > keysLen then false else checksOK keysLen rest (off + s)

/-- Longest prefix of the size batch whose running offset checks pass. -/
def validSizes (keysLen : Nat) : List Nat → Nat → List Nat
  | [], _ => []
  | s :: rest, off =>
    if off + s > keysLen then []
    else s :: validSizes keysLen rest (off + s)

/-- Erasure of the key slices of a size batch from the ordered-set database,
in batch order, starting at offset `off`. -/
def eraseSlices (db : List Key) (keys : Bytes) : List Nat → Nat → List Key
  | [], _ => db
  | s :: rest, off =>
    let k := slice keys off s
    eraseSlices (if setFind db k then setEraseK db k else db) keys rest (off + s)

/-! ## keyCopy (modes.hpp:98-122) -/

/-- keyCopy (src/src/common/modes.hpp:98-122). Returns the bytes memcpy'd
into the destination together with the returned size_t. The size_t
subtraction `ksize - filter_size` is modelled with `sub64` since the C code
computes it in size_t arithmetic. -/
def keyCopy (mode : Nat) (maxDstSize : Nat) (key : Key)
    ( filter_size : Nat) (is_last : Bool) : Bytes × Nat :=
  if hasMode mode modeIgnoreKeys &&
     !(is_last && hasMode mode modeKeepLast) then ([], 0)
  else if !hasMode mode modeNoPre then
    if maxDstSize < key.length then ([], SIZE_TOO_SMALL)
    else (key, key.length)
  else
    let final_ksize := sub64 key.length filter_size
    if maxDstSize < final_ksize then ([], SIZE_TOO_SMALL)
    else if hasMode mode modeSfx then (key.take final_ksize, final_ksize)
    else (key.drop filter_size, final_ksize)

/-- Filter object as seen by listKeys: `check`/`shouldStop` are invoked with
the key bytes only (the value arguments are null there), and the filter
carries the byte length used by keyCopy to strip a prefix or suffix. -/
structure KVFilter where
  check : Key → Bool
  shouldStop : Key → Bool
  fsize : Nat

/-- Modelled from the spec: the keyCopy overload from util/key-copy.hpp used
by the backends (set.cpp:410-420), which is not part of the sources at hand.
Per spec 4.3.1 it applies the same policy as modes.hpp keyCopy, taking the
stripped length from the filter. -/
def keyCopyF (mode : Nat) (is_last : Bool) (filt : KVFilter)
    (maxDstSize : Nat) (key : Key) : Bytes × Nat :=
  keyCopy mode maxDstSize key filt.fsize is_last

/-- Filter accepting every key, with nothing to strip: models the default
always-true filter used when a listing is issued without a filter. -/
def trueFilter : KVFilter := ⟨fun _ => true, fun _ => false, 0⟩

/-! ## SetDatabase::listKeys (set.cpp:368-437), packed layout -/

/-- Iteration loop of SetDatabase::listKeys (set.cpp:391-429) in the packed
layout. Walks the remaining sorted keys with the slot counter `i` bounded by
`max`, the byte offset `off` into a destination of capacity `keysCap`, and
the `buf_too_small` sticky flag `bts`. Returns the per-slot sizes written
(one per consumed slot, in order) and the concatenated bytes written. -/
def listKeysLoop (mode : Nat) (filt : KVFilter) (keysCap max : Nat) :
    List Key → Nat → Nat → Bool → List Nat × Bytes
  | [], _, _, _ => ([], [])
  | key :: rest, i, off, bts =>
    if max ≤ i then ([], [])
    else if !filt.check key then
      if filt.shouldStop key then ([], [])
      else listKeysLoop mode filt keysCap max rest i off bts
    else
      let is_last := hasMode mode modeKeepLast &&
                     (i + 1 == max || rest.isEmpty)
      if bts then
        let (sz, out) := listKeysLoop mode filt keysCap max rest (i+1) off true
        (SIZE_TOO_SMALL :: sz, out)
      else
        let (written, ret) := keyCopyF mode is_last filt (keysCap - off) key
        if ret == SIZE_TOO_SMALL then
          let (sz, out) := listKeysLoop mode filt keysCap max rest (i+1) off true
          (SIZE_TOO_SMALL :: sz, out)
        else
          let (sz, out) :=
            listKeysLoop mode filt keysCap max rest (i+1) (off + ret) false
          (ret :: sz, written ++ out)

/-- SetDatabase::listKeys (set.cpp:368-437) in the packed layout, on a
database given as its sorted key list. `max` is the number of size slots
(keySizes.size) and `keysCap` the byte capacity of the keys buffer. Returns
the status, the bytes written to the keys buffer, and the full size array
(consumed slots followed by the NO_MORE_KEYS padding of set.cpp:432-434). -/
def setListKeys (db : List Key) (mode : Nat) (fromKey : Key)
    (filt : KVFilter) (keysCap max : Nat) : Status × Bytes × List Nat :=
  let start :=
    if fromKey.length == 0 then db
    else if hasMode mode modeInclusive then lowerBound db fromKey
    else upperBound db fromKey
  let (sz, out) := listKeysLoop mode filt keysCap max start 0 0 false
  (Status.OK, out, sz ++ List.replicate (max - sz.length) NO_MORE_KEYS)

/-! ## TkrzwDatabase::get (tkrzw.cpp:431-509), packed layout. The underlying
tkrzw DBM is an external engine; it is modelled as a partial map from keys
to value byte strings, which is the interface the GetValue record processor
sees. -/

/-- Loop of TkrzwDatabase::get (tkrzw.cpp:490-502) with packed == true,
combined with the GetValue processor (tkrzw.cpp:446-476): per key, a missing
entry stamps KEY_NOT_FOUND; a value that no longer fits stamps the current
and all remaining slots SIZE_TOO_SMALL and stops copying; otherwise the
value bytes are appended. Returns the size array and the bytes written. -/
def tkrzwGetLoop (dbm : Key → Option Bytes) (keys : Bytes) (valsCap : Nat) :
    List Nat → Nat → Nat → List Nat × Bytes
  | [], _, _ => ([], [])
  | s :: rest, koff, voff =>
    match dbm (slice keys koff s) with
    | none =>
      let (sz, out) := tkrzwGetLoop dbm keys valsCap rest (koff + s) voff
      (KEY_NOT_FOUND :: sz, out)
    | some v =>
      if valsCap - voff < v.length then
        (List.replicate (rest.length + 1) SIZE_TOO_SMALL, [])
      else
        let (sz, out) :=
          tkrzwGetLoop dbm keys valsCap rest (koff + s) (voff + v.length)
        (v.length :: sz, v ++ out)

/-- TkrzwDatabase::get (tkrzw.cpp:479-509) with packed == true, for a mode
without CONSUME. Returns the status, the value bytes written, and the size
array. -/
def tkrzwGet (dbm : Key → Option Bytes) (keys : Bytes) (ksizes : List Nat)
    (valsCap : Nat) : Status × Bytes × List Nat :=
  let (sz, out) := tkrzwGetLoop dbm keys valsCap ksizes 0 0
  (Status.OK, out, sz)

/-- Last key of a listing, with the empty key for an empty listing. Used to
state which element the KEEP_LAST mode preserves. -/
def lastKey : List Key → Key
  | [] => []
  | [k] => k
  | _ :: k :: rest => lastKey (k :: rest)

/-! ## Helper lemmas about the comparator and the set operations -/

theorem memCmpMin_cons_same (a : Nat) (xs ys : List Nat) :
    memCmpMin (a :: xs) (a :: ys) = memCmpMin xs ys := by
  simp [memCmpMin]

theorem memCmpMin_self (k : List Nat) : memCmpMin k k = Ordering.eq := by
  induction k with
  | nil => rfl
  | cons x xs ih => rw [memCmpMin_cons_same, ih]

theorem DefaultMemCmp_irrefl (k : Key) : DefaultMemCmp k k = false := by
  unfold DefaultMemCmp
  rw [memCmpMin_self]
  simp

theorem DefaultMemCmp_cons_same (a : Nat) (xs ys : List Nat) :
    DefaultMemCmp (a :: xs) (a :: ys) = DefaultMemCmp xs ys := by
  unfold DefaultMemCmp
  rw [memCmpMin_cons_same]
  cases h : memCmpMin xs ys <;> simp [Nat.succ_lt_succ_iff]

theorem eqvKey_iff (a b : Key) : eqvKey a b = true ↔ a = b := by
  induction a generalizing b with
  | nil =>
    cases b with
    | nil => simp [eqvKey, DefaultMemCmp, memCmpMin]
    | cons y ys => simp [eqvKey, DefaultMemCmp, memCmpMin]
  | cons x xs ih =>
    cases b with
    | nil => simp [eqvKey, DefaultMemCmp, memCmpMin]
    | cons y ys =>
      rcases Nat.lt_trichotomy x y with h | h | h
      · have hne : x ≠ y := Nat.ne_of_lt h
        have hnlt : ¬ y < x := Nat.lt_asymm h
        simp [eqvKey, DefaultMemCmp, memCmpMin, h, hnlt, hne]
      · subst h
        have h1 : eqvKey (x :: xs) (x :: ys) = eqvKey xs ys := by
          unfold eqvKey
          rw [DefaultMemCmp_cons_same, DefaultMemCmp_cons_same]
        rw [h1, ih]
        simp
      · have hne : x ≠ y := (Nat.ne_of_lt h).symm
        have hnlt : ¬ x < y := Nat.lt_asymm h
        simp [eqvKey, DefaultMemCmp, memCmpMin, h, hnlt, hne]

theorem eqvKey_beq (a b : Key) : eqvKey a b = (a == b) := by
  cases h : eqvKey a b
  · rcases hab : a == b
    · rfl
    · exact absurd ((eqvKey_iff a b).mpr (eq_of_beq hab)) (by simp [h])
  · have := (eqvKey_iff a b).mp h
    simp [this]

theorem setFind_iff (db : List Key) (k : Key) :
    setFind db k = true ↔ k ∈ db := by
  unfold setFind
  simp only [List.any_eq_true]
  constructor
  · rintro ⟨x, hx, he⟩
    rw [(eqvKey_iff x k).mp he] at hx
    exact hx
  · intro hk
    exact ⟨k, hk, (eqvKey_iff k k).mpr rfl⟩

theorem setEraseK_eq_erase (db : List Key) (k : Key) :
    setEraseK db k = db.erase k := by
  induction db with
  | nil => rfl
  | cons x xs ih =>
    rw [List.erase_cons]
    unfold setEraseK
    rw [eqvKey_beq]
    by_cases h : x = k
    · simp [h]
    · have hb : (x == k) = false := by simp [h]
      simp [hb, ih]

theorem slice_self (k : Bytes) : slice k 0 k.length = k := by
  simp [slice]

theorem setEraseLoop_char (keys : Bytes) :
    ∀ (ksizes : List Nat) (db : List Key) (off : Nat),
    setEraseLoop db keys ksizes off =
      ((if checksOK keys.length ksizes off then Status.OK else Status.InvalidArg),
       eraseSlices db keys (validSizes keys.length ksizes off) off) := by
  intro ksizes
  induction ksizes with
  | nil => intro db off; simp [setEraseLoop, checksOK, validSizes, eraseSlices]
  | cons s rest ih =>
    intro db off
    by_cases h : off + s > keys.length
    · simp [setEraseLoop, checksOK, validSizes, eraseSlices, h]
    · simp only [setEraseLoop, checksOK, validSizes, h, if_neg, ite_false]
      rw [ih]
      simp [eraseSlices, h]

theorem checksOK_false_of_sum (keysLen : Nat) :
    ∀ (ksizes : List Nat) (off : Nat), off ≤ keysLen →
    off + sumList ksizes > keysLen → checksOK keysLen ksizes off = false := by
  intro ksizes
  induction ksizes with
  | nil =>
    intro off h1 h2
    exact absurd h2 (by simp [sumList]; omega)
  | cons s rest ih =>
    intro off h1 h2
    by_cases h : off + s > keysLen
    · simp [checksOK, h]
    · simp only [checksOK, h, ite_false, if_neg]
      exact ih (off + s) (by omega) (by simp [sumList] at h2; omega)

theorem setErase_single (db : List Key) (k : Key) :
    setErase db k [k.length] =
      (Status.OK, if setFind db k then setEraseK db k else db) := by
  simp [setErase, setEraseLoop, slice_self]

theorem usetErase_single (db : List Key) (k : Key) :
    usetErase db k [k.length] =
      (Status.OK, if usetFind db k then db.erase k else db) := by
  simp [usetErase, usetEraseLoop, slice_self]

theorem usetFind_iff (db : List Key) (k : Key) :
    usetFind db k = true ↔ k ∈ db := by
  simp [usetFind]

theorem tkrzwPutLoop_plain (single : Bool) (keys vals : Bytes) :
    ∀ (ksizes vsizes : List Nat) (dbm : Key → Option Bytes) (koff voff : Nat),
    tkrzwPutLoop false false single keys vals ksizes vsizes dbm koff voff =
      (Status.OK, tkrzwStoreAll keys vals ksizes vsizes dbm koff voff) := by
  intro ksizes
  induction ksizes with
  | nil => intro vsizes dbm koff voff; simp [tkrzwPutLoop, tkrzwStoreAll]
  | cons s krest ih =>
    intro vsizes dbm koff voff
    cases vsizes with
    | nil => simp [tkrzwPutLoop, tkrzwStoreAll]
    | cons vs vrest =>
      cases hdb : dbm (slice keys koff s) with
      | some w => simp [tkrzwPutLoop, tkrzwSet, hdb, tkrzwStoreAll, ih]
      | none => simp [tkrzwPutLoop, tkrzwSet, hdb, tkrzwStoreAll, ih]

theorem tkrzwPutLoop_new_only_multi (keys vals : Bytes) :
    ∀ (ksizes vsizes : List Nat) (dbm : Key → Option Bytes) (koff voff : Nat),
    tkrzwPutLoop false true false keys vals ksizes vsizes dbm koff voff =
      (Status.OK, tkrzwInsertNew keys vals ksizes vsizes dbm koff voff) := by
  intro ksizes
  induction ksizes with
  | nil => intro vsizes dbm koff voff; simp [tkrzwPutLoop, tkrzwInsertNew]
  | cons s krest ih =>
    intro vsizes dbm koff voff
    cases vsizes with
    | nil => simp [tkrzwPutLoop, tkrzwInsertNew]
    | cons vs vrest =>
      cases hdb : dbm (slice keys koff s) with
      | some w => simp [tkrzwPutLoop, tkrzwSet, hdb, tkrzwInsertNew, ih]
      | none => simp [tkrzwPutLoop, tkrzwSet, hdb, tkrzwInsertNew, ih]

/-! ## Claims -/

/-- C1: the claim says that a put with NOTIFY invokes notifyKey with exactly
the stored key bytes. The code (set.cpp:290-296) advances key_offset before
building the key handed to notifyKey, so the watcher is notified with the
bytes that follow the stored key: storing "ab","cd" notifies "cd" and then
the (empty) slice beyond the buffer, never "ab". This theorem evaluates the
put at that failing input. -/
theorem c1_notify_wrong_bytes :
    setPut [] modeNotify [97, 98, 99, 100] [2, 2] [] [0, 0] =
      (Status.OK, [[97, 98], [99, 100]], [[99, 100], []]) ∧
    ([[99, 100], []] : List Key) ≠ [[97, 98], [99, 100]] := by
  decide

/-- C2 counterexample: with EXIST_ONLY and a two-key batch, put returns
SUCCESS without storing anything (set.cpp:274-280 returns before the store
loop), while a plain put of the same batch stores both keys; so the claim
that the mode is ignored on larger batches is false for EXIST_ONLY. -/
theorem c2_exist_only_not_ignored :
    setPut [] modeExistOnly [97, 98] [1, 1] [] [0, 0] = (Status.OK, [], []) ∧
    setPut [] 0 [97, 98] [1, 1] [] [0, 0] = (Status.OK, [[97], [98]], []) ∧
    ([] : List Key) ≠ [[97], [98]] := by
  decide

/-- C2 amended: on the ordered-set and unordered-set backends, NEW_ONLY
with a batch of more than one key is ignored (the put behaves exactly like
a plain put), while EXIST_ONLY with a batch of more than one key returns
SUCCESS without storing any key (for a structurally valid batch). On the
tkrzw backend EXIST_ONLY is never consulted (such a put is identical to a
plain put), while NEW_ONLY with a batch of more than one key returns
SUCCESS but stores only the records whose keys are absent, keeping the old
values of present keys — unlike a plain put, which overwrites them. -/
theorem c2_amended_large_batches (db : List Key) (dbm : Key → Option Bytes)
    (keys vals : Bytes) (ksizes vsizes : List Nat)
    (h1 : 1 < ksizes.length) :
    (setPut db modeNewOnly keys ksizes [] vsizes =
      setPut db 0 keys ksizes [] vsizes) ∧
    (ksizes.length = vsizes.length → sumList ksizes ≤ keys.length →
      sumList vsizes = 0 →
      setPut db modeExistOnly keys ksizes [] vsizes = (Status.OK, db, [])) ∧
    (usetPut db modeNewOnly keys ksizes vsizes =
      usetPut db 0 keys ksizes vsizes) ∧
    (ksizes.length = vsizes.length → sumList ksizes ≤ keys.length →
      sumList vsizes = 0 →
      usetPut db modeExistOnly keys ksizes vsizes = (Status.OK, db)) ∧
    (tkrzwPut dbm modeExistOnly keys ksizes vals vsizes =
      tkrzwPut dbm 0 keys ksizes vals vsizes) ∧
    (ksizes.length = vsizes.length → sumList ksizes ≤ keys.length →
      sumList vsizes ≤ vals.length →
      tkrzwPut dbm 0 keys ksizes vals vsizes =
        (Status.OK, tkrzwStoreAll keys vals ksizes vsizes dbm 0 0) ∧
      tkrzwPut dbm modeNewOnly keys ksizes vals vsizes =
        (Status.OK, tkrzwInsertNew keys vals ksizes vsizes dbm 0 0)) := by
  have hne1 : (ksizes.length == 1) = false := by
    simp only [beq_eq_false_iff_ne]; omega
  refine ⟨?_, ?_, ?_, ?_, ?_, ?_⟩
  · have e1 : hasMode modeNewOnly modeExistOnly = false := by decide
    have e2 : hasMode modeNewOnly modeNotify = false := by decide
    have e4 : hasMode 0 modeExistOnly = false := by decide
    have e5 : hasMode 0 modeNewOnly = false := by decide
    have e6 : hasMode 0 modeNotify = false := by decide
    simp only [setPut, e1, e2, e4, e5, e6, hne1, Bool.and_false, Bool.false_and,
      Bool.and_self, Bool.false_eq_true, if_false]
  · intro h2 h3 h4
    have b1 : (ksizes.length != vsizes.length) = false := by simp [h2]
    have b2 : (([] : Bytes).length != 0) = false := by decide
    have b3 : ¬ (sumList ksizes > keys.length) := Nat.not_lt.mpr h3
    have b4 : (sumList vsizes != 0) = false := by simp [h4]
    have e7 : hasMode modeExistOnly modeExistOnly = true := by decide
    simp only [setPut, b1, b2, b3, b4, e7, hne1, Bool.false_and, Bool.false_eq_true,
      if_false, if_true, ite_true, ite_false, if_neg b3]
  · have e1 : hasMode modeNewOnly modeExistOnly = false := by decide
    have e4 : hasMode 0 modeExistOnly = false := by decide
    have e5 : hasMode 0 modeNewOnly = false := by decide
    simp only [usetPut, e1, e4, e5, hne1, Bool.and_false, Bool.false_and,
      Bool.and_self, Bool.false_eq_true, if_false]
  · intro h2 h3 h4
    have b1 : (ksizes.length != vsizes.length) = false := by simp [h2]
    have b3 : ¬ (sumList ksizes > keys.length) := Nat.not_lt.mpr h3
    have b4 : ¬ (sumList vsizes > 0) := by omega
    have e7 : hasMode modeExistOnly modeExistOnly = true := by decide
    simp only [usetPut, b1, b3, b4, e7, hne1, Bool.false_and,
      Bool.false_eq_true, if_false, if_true, ite_true, ite_false,
      if_neg b3, if_neg b4]
  · have t1 : hasMode modeExistOnly modeAppend = false := by decide
    have t2 : hasMode modeExistOnly modeNewOnly = false := by decide
    have t3 : hasMode 0 modeAppend = false := by decide
    have t4 : hasMode 0 modeNewOnly = false := by decide
    simp only [tkrzwPut, t1, t2, t3, t4]
  · intro h2 h3 h4
    have b1 : (ksizes.length != vsizes.length) = false := by simp [h2]
    have b3 : ¬ (sumList ksizes > keys.length) := Nat.not_lt.mpr h3
    have b5 : ¬ (sumList vsizes > vals.length) := Nat.not_lt.mpr h4
    have t3 : hasMode 0 modeAppend = false := by decide
    have t4 : hasMode 0 modeNewOnly = false := by decide
    have t5 : hasMode modeNewOnly modeAppend = false := by decide
    have t6 : hasMode modeNewOnly modeNewOnly = true := by decide
    constructor
    · simp only [tkrzwPut, b1, t3, t4, hne1, Bool.false_eq_true, if_false,
        ite_false, if_neg b3, if_neg b5]
      rw [tkrzwPutLoop_plain]
    · simp only [tkrzwPut, b1, t5, t6, hne1, Bool.false_eq_true, if_false,
        ite_false, if_neg b3, if_neg b5]
      rw [tkrzwPutLoop_new_only_multi]

/-- C2 witness for the amended claim at a concrete batch of two keys on
each of the three backends. -/
theorem c2_amended_witness :
    setPut [] modeNewOnly [97, 98] [1, 1] [] [0, 0] =
      setPut [] 0 [97, 98] [1, 1] [] [0, 0] ∧
    setPut [] modeExistOnly [97, 98] [1, 1] [] [0, 0] = (Status.OK, [], []) ∧
    usetPut [] modeNewOnly [97, 98] [1, 1] [0, 0] =
      usetPut [] 0 [97, 98] [1, 1] [0, 0] ∧
    usetPut [] modeExistOnly [97, 98] [1, 1] [0, 0] = (Status.OK, []) ∧
    tkrzwPut (fun _ => none) modeExistOnly [97, 98] [1, 1] [] [0, 0] =
      tkrzwPut (fun _ => none) 0 [97, 98] [1, 1] [] [0, 0] ∧
    tkrzwPut (fun _ => none) modeNewOnly [97, 98] [1, 1] [] [0, 0] =
      (Status.OK, tkrzwInsertNew [97, 98] [] [1, 1] [0, 0]
        (fun _ => none) 0 0) := by
  have h := c2_amended_large_batches [] (fun _ => none) [97, 98] []
    [1, 1] [0, 0] (by decide)
  exact ⟨h.1, h.2.1 (by decide) (by decide) (by decide), h.2.2.1,
    h.2.2.2.1 (by decide) (by decide) (by decide), h.2.2.2.2.1,
    (h.2.2.2.2.2 (by decide) (by decide) (by decide)).2⟩

/-- C3 counterexample: the erase loop (set.cpp:346-364) checks the offset
bound per element, after earlier elements of the batch have already been
erased: erasing with ksizes = [1, 5] over a one-byte key buffer returns
INVALID_ARGS but has removed the key "a" from the database. -/
theorem c3_erase_mutates_before_error :
    setErase [[97]] [97] [1, 5] = (Status.InvalidArg, []) ∧
    ([[97]] : List Key) ≠ [] := by
  decide

/-- C3 amended: put validates the batch sizes before any mutation, so a size
violation returns INVALID_ARGS with the database unchanged; erase also
returns INVALID_ARGS when the sizes overrun the key buffer, but the keys of
the batch prefix that precedes the first offending element have already been
removed when the error is reported. -/
theorem c3_amended_validation :
    (∀ (db : List Key) (mode : Nat) (keys : Bytes) (ksizes : List Nat)
       (vals : Bytes) (vsizes : List Nat),
      ksizes.length ≠ vsizes.length ∨ sumList ksizes > keys.length →
      (setPut db mode keys ksizes vals vsizes).1 = Status.InvalidArg ∧
      (setPut db mode keys ksizes vals vsizes).2.1 = db) ∧
    (∀ (db : List Key) (keys : Bytes) (ksizes : List Nat),
      sumList ksizes > keys.length →
      (setErase db keys ksizes).1 = Status.InvalidArg ∧
      (setErase db keys ksizes).2 =
        eraseSlices db keys (validSizes keys.length ksizes 0) 0) := by
  constructor
  · intro db mode keys ksizes vals vsizes h
    by_cases h1 : ksizes.length = vsizes.length
    · have hs : sumList ksizes > keys.length := by
        rcases h with h | h
        · exact absurd h1 h
        · exact h
      have b1 : (ksizes.length != vsizes.length) = false := by simp [h1]
      by_cases h2 : vals.length = 0
      · have b2 : (vals.length != 0) = false := by simp [h2]
        simp [setPut, b1, b2, hs]
      · have b2 : (vals.length != 0) = true := by simp [h2]
        simp [setPut, b1, b2]
    · have b1 : (ksizes.length != vsizes.length) = true := by simp [h1]
      simp [setPut, b1]
  · intro db keys ksizes h
    rw [setErase, setEraseLoop_char]
    rw [checksOK_false_of_sum keys.length ksizes 0 (Nat.zero_le _)
      (by simpa using h)]
    simp

/-- C3 witness for the amended claim at concrete inputs. -/
theorem c3_amended_witness :
    (setPut [] 0 [97] [1, 1] [] [0]).1 = Status.InvalidArg ∧
    (setErase [[97]] [97] [1, 5]).1 = Status.InvalidArg ∧
    (setErase [[97]] [97] [1, 5]).2 =
      eraseSlices [[97]] [97] (validSizes 1 [1, 5] 0) 0 := by
  have h1 := c3_amended_validation.1 [] 0 [97] [1, 1] [] [0] (Or.inl (by decide))
  have h2 := c3_amended_validation.2 [[97]] [97] [1, 5] (by decide)
  exact ⟨h1.1, h2.1, h2.2⟩

/-- C4 counterexample: a put whose mode sets both NEW_ONLY and EXIST_ONLY on
a single existing key returns SUCCESS, not KEY_EXISTS, because the
EXIST_ONLY branch (set.cpp:274-280) runs first; so the claim is false for a
mode that also carries EXIST_ONLY. -/
theorem c4_new_only_shadowed :
    setPut [[97]] (modeNewOnly ||| modeExistOnly) [97] [1] [] [0] =
      (Status.OK, [[97]], []) ∧
    Status.OK ≠ Status.KeyExists := by
  decide

/-- C4 amended: for a structurally valid single-key put whose mode sets
NEW_ONLY and does not set EXIST_ONLY, when the key is already present the
call returns KEY_EXISTS and leaves the database unchanged — on all three
backends. On tkrzw (which never consults EXIST_ONLY) this additionally
requires APPEND to be unset, since the append path bypasses the new-only
check entirely. -/
theorem c4_amended_new_only (db : List Key) (dbm : Key → Option Bytes)
    (mode : Nat) (keys vals : Bytes) (s vlen : Nat)
    (hnew : hasMode mode modeNewOnly = true)
    (hex : hasMode mode modeExistOnly = false)
    (hs : s ≤ keys.length) :
    (setFind db (slice keys 0 s) = true →
      setPut db mode keys [s] [] [0] = (Status.KeyExists, db, [])) ∧
    (usetFind db (slice keys 0 s) = true →
      usetPut db mode keys [s] [0] = (Status.KeyExists, db)) ∧
    (hasMode mode modeAppend = false → vlen ≤ vals.length →
      dbm (slice keys 0 s) ≠ none →
      tkrzwPut dbm mode keys [s] vals [vlen] = (Status.KeyExists, dbm)) := by
  have h3 : ¬ (sumList [s] > keys.length) := by
    simp only [sumList]; omega
  refine ⟨?_, ?_, ?_⟩
  · intro hfind
    simp [setPut, hex, hnew, hfind, h3, hs, sumList]
  · intro hfind
    simp [usetPut, hex, hnew, hfind, h3, hs, sumList]
  · intro happ hv hsome
    have h5 : ¬ (sumList [vlen] > vals.length) := by
      simp only [sumList]; omega
    cases hdb : dbm (slice keys 0 s) with
    | none => exact absurd hdb hsome
    | some w =>
      have h3' : ¬ (keys.length < s) := by omega
      have h5' : ¬ (vals.length < vlen) := by omega
      simp [tkrzwPut, tkrzwPutLoop, tkrzwSet, hdb, hnew, happ, h3, h5,
        h3', h5', sumList]

/-- C4 witness: NEW_ONLY single-key put of the already stored key "a" on
each of the three backends. -/
theorem c4_amended_witness :
    setPut [[97]] modeNewOnly [97] [1] [] [0] =
      (Status.KeyExists, [[97]], []) ∧
    usetPut [[97]] modeNewOnly [97] [1] [0] = (Status.KeyExists, [[97]]) ∧
    tkrzwPut (fun k => if k == [97] then some [5] else none) modeNewOnly
      [97] [1] [9] [1] =
      (Status.KeyExists, fun k => if k == [97] then some [5] else none) := by
  have h := c4_amended_new_only [[97]]
    (fun k => if k == [97] then some [5] else none) modeNewOnly [97] [9] 1 1
    (by decide) (by decide) (by decide)
  exact ⟨h.1 (by decide), h.2.1 (by decide), h.2.2 (by decide) (by decide)
    (by decide)⟩

/-- C9: on both set backends, under a mode without WAIT, erasing an absent
key returns SUCCESS and leaves the database unchanged, and erasing the same
key twice gives the same database as erasing it once, all calls returning
SUCCESS. -/
theorem c9_erase_idempotent (db : List Key) (k : Key) (hnd : db.Nodup) :
    (setFind db k = false → setErase db k [k.length] = (Status.OK, db)) ∧
    ((setErase db k [k.length]).1 = Status.OK ∧
      setErase (setErase db k [k.length]).2 k [k.length] =
        (Status.OK, (setErase db k [k.length]).2)) ∧
    (usetFind db k = false → usetErase db k [k.length] = (Status.OK, db)) ∧
    ((usetErase db k [k.length]).1 = Status.OK ∧
      usetErase (usetErase db k [k.length]).2 k [k.length] =
        (Status.OK, (usetErase db k [k.length]).2)) := by
  refine ⟨?_, ⟨?_, ?_⟩, ?_, ⟨?_, ?_⟩⟩
  · intro hf
    rw [setErase_single, if_neg (by simp [hf])]
  · rw [setErase_single]
  · by_cases hf : setFind db k = true
    · have hnm : setFind (db.erase k) k = false := by
        have h : ¬ (setFind (db.erase k) k = true) := by
          rw [setFind_iff]; exact hnd.not_mem_erase
        simpa using h
      simp [setErase_single, hf, setEraseK_eq_erase, hnm]
    · have hf0 : setFind db k = false := by simpa using hf
      simp [setErase_single, hf0]
  · intro hf
    rw [usetErase_single, if_neg (by simp [hf])]
  · rw [usetErase_single]
  · by_cases hf : usetFind db k = true
    · have hnm : usetFind (db.erase k) k = false := by
        have h : ¬ (usetFind (db.erase k) k = true) := by
          rw [usetFind_iff]; exact hnd.not_mem_erase
        simpa using h
      simp [usetErase_single, hf, hnm]
    · have hf0 : usetFind db k = false := by simpa using hf
      simp [usetErase_single, hf0]

/-- C9 witness: absent-key erase of "b" from the database holding "a", and
double erase of "a". -/
theorem c9_witness :
    setErase [[97]] [98] [1] = (Status.OK, [[97]]) ∧
    setErase (setErase [[97]] [97] [1]).2 [97] [1] =
      (Status.OK, (setErase [[97]] [97] [1]).2) := by
  have h1 := c9_erase_idempotent [[97]] [98] (by decide)
  have h2 := c9_erase_idempotent [[97]] [97] (by decide)
  exact ⟨h1.1 (by decide), h2.2.1.2⟩

/-- C10 counterexample: a single-key put with NEW_ONLY (EXIST_ONLY unset) of
an already-present key, with all value sizes zero and an empty value buffer,
returns KEY_EXISTS rather than succeeding, so the success half of the claim
is false as universally stated. -/
theorem c10_new_only_blocks_success :
    setPut [[97]] modeNewOnly [97] [1] [] [0] = (Status.KeyExists, [[97]], []) ∧
    Status.KeyExists ≠ Status.OK := by
  decide

/-- C10 amended: for the set backend, any put whose value buffer is
non-empty or whose value sizes sum to a nonzero total returns INVALID_ARGS
with the key set unchanged; and a structurally valid put with empty value
buffer and all-zero value sizes, without EXIST_ONLY, succeeds unless
NEW_ONLY is set on a single-key batch whose key is already present. -/
theorem c10_amended_value_checks :
    (∀ (db : List Key) (mode : Nat) (keys : Bytes) (ksizes : List Nat)
       (vals : Bytes) (vsizes : List Nat),
      vals.length ≠ 0 ∨ sumList vsizes ≠ 0 →
      (setPut db mode keys ksizes vals vsizes).1 = Status.InvalidArg ∧
      (setPut db mode keys ksizes vals vsizes).2.1 = db) ∧
    (∀ (db : List Key) (mode : Nat) (keys : Bytes) (ksizes vsizes : List Nat),
      hasMode mode modeExistOnly = false →
      ksizes.length = vsizes.length →
      sumList ksizes ≤ keys.length →
      sumList vsizes = 0 →
      ¬(hasMode mode modeNewOnly = true ∧ ksizes.length = 1 ∧
        setFind db (slice keys 0 (ksizes.headD 0)) = true) →
      (setPut db mode keys ksizes [] vsizes).1 = Status.OK) := by
  constructor
  · intro db mode keys ksizes vals vsizes h
    by_cases h1 : ksizes.length = vsizes.length
    · have b1 : (ksizes.length != vsizes.length) = false := by simp [h1]
      by_cases h2 : vals.length = 0
      · have b2 : (vals.length != 0) = false := by simp [h2]
        have hv : sumList vsizes ≠ 0 := by
          rcases h with h | h
          · exact absurd h2 h
          · exact h
        by_cases h3 : sumList ksizes > keys.length
        · simp [setPut, b1, b2, h3]
        · simp [setPut, b1, b2, h3, hv]
      · have b2 : (vals.length != 0) = true := by simp [h2]
        simp [setPut, b1, b2]
    · have b1 : (ksizes.length != vsizes.length) = true := by simp [h1]
      simp [setPut, b1]
  · intro db mode keys ksizes vsizes hex h1 h2 h3 h4
    have b1 : (ksizes.length != vsizes.length) = false := by simp [h1]
    have b3 : ¬ (sumList ksizes > keys.length) := Nat.not_lt.mpr h2
    have b4 : (sumList vsizes != 0) = false := by simp [h3]
    simp [setPut, b1, b3, b4, hex]
    rw [if_neg]
    rintro ⟨⟨ha, hb⟩, hc⟩
    exact h4 ⟨ha, hb, by simpa [List.headD_eq_head?_getD] using hc⟩

/-- C10 witness: invalid put with a non-empty value buffer, and a valid
all-empty-values put of two fresh keys. -/
theorem c10_amended_witness :
    (setPut [] 0 [97] [1] [5] [1]).1 = Status.InvalidArg ∧
    (setPut [] 0 [97, 98] [1, 1] [] [0, 0]).1 = Status.OK := by
  have h1 := c10_amended_value_checks.1 [] 0 [97] [1] [5] [1] (Or.inl (by decide))
  have h2 := c10_amended_value_checks.2 [] 0 [97, 98] [1, 1] [0, 0]
    (by decide) (by decide) (by decide) (by decide) (by simp)
  exact ⟨h1.1, h2⟩

theorem sub64_eq (a b : Nat) (hb : b ≤ a) (ha : a < 2 ^ 64) :
    sub64 a b = a - b := by
  unfold sub64
  omega

/-- C7 counterexample: when the mode also sets IGNORE_KEYS (and the element
is not a kept-last one), keyCopy returns 0 and copies nothing even though
NO_PREFIX is set (modes.hpp:103-106 runs before the NO_PREFIX branch), so
the claim quantified over every mode is false: stripping [97,98] by one
byte should copy [98] and return 1. -/
theorem c7_ignore_keys_first :
    keyCopy (modeNoPre ||| modeIgnoreKeys) 10 [97, 98] 1 false = ([], 0) ∧
    (0 : Nat) ≠ 1 ∧ ([] : Bytes) ≠ [98] := by
  decide

/-- C7 amended: provided the IGNORE_KEYS placeholder rule does not apply
(IGNORE_KEYS unset, or the element is last under KEEP_LAST), keyCopy with
NO_PREFIX strips filter_size bytes from the start (or from the end under
SUFFIX) and returns the stripped length, and in every branch an insufficient
destination yields SIZE_TOO_SMALL with nothing written. -/
theorem c7_amended_keyCopy (mode maxDst : Nat) (key : Key) (fsize : Nat)
    (il : Bool)
    (hig : ¬(hasMode mode modeIgnoreKeys = true ∧
      ¬(il = true ∧ hasMode mode modeKeepLast = true))) :
    (hasMode mode modeNoPre = true → fsize ≤ key.length →
      key.length < 2 ^ 64 →
      (maxDst < key.length - fsize →
        keyCopy mode maxDst key fsize il = ([], SIZE_TOO_SMALL)) ∧
      (key.length - fsize ≤ maxDst →
        keyCopy mode maxDst key fsize il =
          ((if hasMode mode modeSfx = true then key.take (key.length - fsize)
            else key.drop fsize), key.length - fsize))) ∧
    (hasMode mode modeNoPre = false →
      (maxDst < key.length →
        keyCopy mode maxDst key fsize il = ([], SIZE_TOO_SMALL)) ∧
      (key.length ≤ maxDst →
        keyCopy mode maxDst key fsize il = (key, key.length))) := by
  have hb : (hasMode mode modeIgnoreKeys &&
      !(il && hasMode mode modeKeepLast)) = false := by
    cases h : (hasMode mode modeIgnoreKeys && !(il && hasMode mode modeKeepLast))
    · rfl
    · rw [Bool.and_eq_true] at h
      exfalso
      apply hig
      refine ⟨h.1, fun hl => ?_⟩
      rw [hl.1, hl.2] at h
      simp at h
  constructor
  · intro hp hf hlen
    have hsub : sub64 key.length fsize = key.length - fsize :=
      sub64_eq _ _ hf hlen
    constructor
    · intro hlt
      unfold keyCopy
      simp only [hb, hp, hsub, Bool.not_true, Bool.false_eq_true, if_false,
        ite_false]
      rw [if_pos hlt]
    · intro hge
      have hn : ¬ (maxDst < key.length - fsize) := Nat.not_lt.mpr hge
      unfold keyCopy
      simp only [hb, hp, hsub, Bool.not_true, Bool.false_eq_true, if_false,
        ite_false]
      rw [if_neg hn]
      cases hsf : hasMode mode modeSfx <;> simp [hsf]
  · intro hp
    constructor
    · intro hlt
      unfold keyCopy
      simp only [hb, hp, Bool.not_false, Bool.false_eq_true, if_false,
        ite_false, if_true, ite_true]
      rw [if_pos hlt]
    · intro hge
      have hn : ¬ (maxDst < key.length) := Nat.not_lt.mpr hge
      unfold keyCopy
      simp only [hb, hp, Bool.not_false, Bool.false_eq_true, if_false,
        ite_false, if_true, ite_true]
      rw [if_neg hn]

/-- C7 witness: stripping one byte from the front of "ab" into a large and
into an empty destination. -/
theorem c7_amended_witness :
    keyCopy modeNoPre 10 [97, 98] 1 false = ([98], 1) ∧
    keyCopy modeNoPre 0 [97, 98] 1 false = ([], SIZE_TOO_SMALL) := by
  have h := c7_amended_keyCopy modeNoPre 10 [97, 98] 1 false (by decide)
  have h0 := c7_amended_keyCopy modeNoPre 0 [97, 98] 1 false (by decide)
  constructor
  · exact ((h.1 (by decide) (by decide) (by decide)).2 (by decide)).trans
      (by decide)
  · exact (h0.1 (by decide) (by decide) (by decide)).1 (by decide)

theorem listKeysLoop_mode_zero (keysCap max : Nat)
    (hcap : keysCap < SIZE_TOO_SMALL) :
    ∀ (rest : List Key) (i off : Nat),
    off + sumList ((rest.take (max - i)).map List.length) ≤ keysCap →
    listKeysLoop 0 trueFilter keysCap max rest i off false =
      ((rest.take (max - i)).map List.length, flat (rest.take (max - i))) := by
  intro rest
  induction rest with
  | nil => intro i off h2; simp [listKeysLoop, flat]
  | cons key tail ih =>
    intro i off h2
    by_cases hi : max ≤ i
    · have h0 : max - i = 0 := by omega
      simp [listKeysLoop, hi, h0, flat]
    · have hstep : max - i = (max - (i + 1)) + 1 := by omega
      rw [hstep] at h2 ⊢
      rw [List.take_succ_cons] at h2 ⊢
      simp only [List.map_cons, sumList] at h2
      have hfit : ¬ (keysCap - off < key.length) := by omega
      have hbeq : (key.length == SIZE_TOO_SMALL) = false := by
        have hl : key.length < SIZE_TOO_SMALL := by omega
        simp [Nat.ne_of_lt hl]
      have ihx := ih (i + 1) (off + key.length) (by omega)
      have tf1 : ∀ k, trueFilter.check k = true := fun _ => rfl
      have tf2 : ∀ k, trueFilter.shouldStop k = false := fun _ => rfl
      have tf3 : trueFilter.fsize = 0 := rfl
      simp [listKeysLoop, hi, tf1, tf2, tf3, keyCopyF, keyCopy, hasMode,
        hbeq, hfit, ihx, flat, sumList]

/-- C5: on a sorted database, list_keys with empty from_key, the always-true
filter, mode 0 and `max` size slots returns SUCCESS, emits exactly the
first min(max, |keys|) stored keys, in comparator order and without
duplicates, and stamps every unconsumed trailing size slot NO_MORE_KEYS
(given a byte buffer large enough for those keys). -/
theorem c5_list_keys_full (db : List Key) (keysCap max : Nat)
    (hsorted : db.Pairwise (fun a b => DefaultMemCmp a b = true))
    (hcap : keysCap < SIZE_TOO_SMALL)
    (hfit : sumList ((db.take max).map List.length) ≤ keysCap) :
    setListKeys db 0 [] trueFilter keysCap max =
      (Status.OK, flat (db.take max),
        (db.take max).map List.length ++
          List.replicate (max - (db.take max).length) NO_MORE_KEYS) ∧
    (db.take max).length = min max db.length ∧
    (db.take max).Pairwise (fun a b => DefaultMemCmp a b = true) ∧
    (db.take max).Nodup := by
  have hpair : (db.take max).Pairwise (fun a b => DefaultMemCmp a b = true) :=
    hsorted.sublist (List.take_sublist max db)
  refine ⟨?_, by simp, hpair, ?_⟩
  · have hloop := listKeysLoop_mode_zero keysCap max hcap db 0 0
      (by simpa using hfit)
    simp only [setListKeys]
    rw [show (max - 0) = max from rfl] at hloop
    simp [hloop]
  · refine List.Pairwise.imp ?_ hpair
    intro a b hab
    intro he
    rw [he, DefaultMemCmp_irrefl] at hab
    exact Bool.false_ne_true hab

/-- C5 witness: listing the two-key database {"a","bb"} with three slots. -/
theorem c5_witness :
    setListKeys [[97], [98, 98]] 0 [] trueFilter 10 3 =
      (Status.OK, [97, 98, 98], [1, 2, NO_MORE_KEYS]) := by
  have h := c5_list_keys_full [[97], [98, 98]] 10 3 (by decide) (by decide)
    (by decide)
  exact h.1.trans (by decide)

theorem listKeysLoop_after_overflow (mode : Nat) (filt : KVFilter)
    (keysCap max : Nat) :
    ∀ (rest : List Key) (i off : Nat),
    ∃ m, listKeysLoop mode filt keysCap max rest i off true =
      (List.replicate m SIZE_TOO_SMALL, []) := by
  intro rest
  induction rest with
  | nil => intro i off; exact ⟨0, by simp [listKeysLoop]⟩
  | cons key tail ih =>
    intro i off
    by_cases hi : max ≤ i
    · exact ⟨0, by simp [listKeysLoop, hi]⟩
    · by_cases hc : filt.check key = true
      · obtain ⟨m, hm⟩ := ih (i + 1) off
        exact ⟨m + 1, by simp [listKeysLoop, hi, hc, hm, List.replicate_succ]⟩
      · have hc0 : filt.check key = false := by simpa using hc
        by_cases hs : filt.shouldStop key = true
        · exact ⟨0, by simp [listKeysLoop, hi, hc0, hs]⟩
        · have hs0 : filt.shouldStop key = false := by simpa using hs
          obtain ⟨m, hm⟩ := ih i off
          exact ⟨m, by simp [listKeysLoop, hi, hc0, hs0, hm]⟩

theorem keyCopy_ret_le (mode maxDst : Nat) (key : Key) (fsize : Nat)
    (il : Bool) :
    (keyCopy mode maxDst key fsize il).2 = SIZE_TOO_SMALL ∨
    (keyCopy mode maxDst key fsize il).2 ≤ maxDst := by
  simp only [keyCopy]
  by_cases h1 : (hasMode mode modeIgnoreKeys &&
      !(il && hasMode mode modeKeepLast)) = true
  · rw [if_pos h1]; right; exact Nat.zero_le _
  · rw [if_neg h1]
    by_cases h2 : (!hasMode mode modeNoPre) = true
    · rw [if_pos h2]
      by_cases h3 : maxDst < key.length
      · rw [if_pos h3]; left; rfl
      · rw [if_neg h3]; right; exact Nat.le_of_not_lt h3
    · rw [if_neg h2]
      by_cases h4 : maxDst < sub64 key.length fsize
      · rw [if_pos h4]; left; rfl
      · rw [if_neg h4]
        by_cases h5 : hasMode mode modeSfx = true
        · rw [if_pos h5]; right; exact Nat.le_of_not_lt h4
        · rw [if_neg h5]; right; exact Nat.le_of_not_lt h4

theorem listKeysLoop_shape (mode : Nat) (filt : KVFilter) (keysCap max : Nat)
    (hcap : keysCap < NO_MORE_KEYS) :
    ∀ (rest : List Key) (i off : Nat),
    ∃ a m out, listKeysLoop mode filt keysCap max rest i off false =
      (a ++ List.replicate m SIZE_TOO_SMALL, out) ∧
      ∀ x ∈ a, x < NO_MORE_KEYS := by
  intro rest
  induction rest with
  | nil => intro i off; exact ⟨[], 0, [], by simp [listKeysLoop], by simp⟩
  | cons key tail ih =>
    intro i off
    by_cases hi : max ≤ i
    · exact ⟨[], 0, [], by simp [listKeysLoop, hi], by simp⟩
    · by_cases hc : filt.check key = true
      · by_cases hts : (keyCopyF mode (hasMode mode modeKeepLast &&
            (i + 1 == max || tail.isEmpty)) filt (keysCap - off) key).2 =
            SIZE_TOO_SMALL
        · obtain ⟨m, hm⟩ := listKeysLoop_after_overflow mode filt keysCap max
            tail (i + 1) off
          refine ⟨[], m + 1, [], ?_, by simp⟩
          have hbeq : ((keyCopyF mode (hasMode mode modeKeepLast &&
              (i + 1 == max || tail.isEmpty)) filt (keysCap - off) key).2 ==
              SIZE_TOO_SMALL) = true := by simp [hts]
          simp [listKeysLoop, hi, hc, hbeq, hm, List.replicate_succ]
        · obtain ⟨a, m, out, hrec, ha⟩ := ih (i + 1)
            (off + (keyCopyF mode (hasMode mode modeKeepLast &&
              (i + 1 == max || tail.isEmpty)) filt (keysCap - off) key).2)
          have hle : (keyCopyF mode (hasMode mode modeKeepLast &&
              (i + 1 == max || tail.isEmpty)) filt (keysCap - off) key).2 ≤
              keysCap - off := by
            rcases keyCopy_ret_le mode (keysCap - off) key filt.fsize
              (hasMode mode modeKeepLast && (i + 1 == max || tail.isEmpty))
              with h | h
            · exact absurd h hts
            · exact h
          have hbeq : ((keyCopyF mode (hasMode mode modeKeepLast &&
              (i + 1 == max || tail.isEmpty)) filt (keysCap - off) key).2 ==
              SIZE_TOO_SMALL) = false := by simp [hts]
          refine ⟨(keyCopyF mode (hasMode mode modeKeepLast &&
              (i + 1 == max || tail.isEmpty)) filt (keysCap - off) key).2 :: a,
            m, (keyCopyF mode (hasMode mode modeKeepLast &&
              (i + 1 == max || tail.isEmpty)) filt (keysCap - off) key).1 ++
              out, ?_, ?_⟩
          · simp [listKeysLoop, hi, hc, hbeq, hrec]
          · intro x hx
            rcases List.mem_cons.mp hx with rfl | hx
            · exact lt_of_le_of_lt (le_trans hle (Nat.sub_le keysCap off))
                hcap
            · exact ha x hx
      · have hc0 : filt.check key = false := by simpa using hc
        by_cases hs : filt.shouldStop key = true
        · exact ⟨[], 0, [], by simp [listKeysLoop, hi, hc0, hs], by simp⟩
        · have hs0 : filt.shouldStop key = false := by simpa using hs
          obtain ⟨a, m, out, hrec, ha⟩ := ih i off
          exact ⟨a, m, out, by simp [listKeysLoop, hi, hc0, hs0, hrec], ha⟩

theorem tkrzwGetLoop_shape (dbm : Key → Option Bytes) (keys : Bytes)
    (valsCap : Nat) (hcap : valsCap < SIZE_TOO_SMALL) :
    ∀ (ksizes : List Nat) (koff voff : Nat),
    ∃ a m, (tkrzwGetLoop dbm keys valsCap ksizes koff voff).1 =
      a ++ List.replicate m SIZE_TOO_SMALL ∧
      ∀ x ∈ a, x ≠ SIZE_TOO_SMALL := by
  intro ksizes
  induction ksizes with
  | nil => intro koff voff; exact ⟨[], 0, by simp [tkrzwGetLoop], by simp⟩
  | cons s rest ih =>
    intro koff voff
    cases hdb : dbm (slice keys koff s) with
    | none =>
      obtain ⟨a, m, hrec, ha⟩ := ih (koff + s) voff
      refine ⟨KEY_NOT_FOUND :: a, m, ?_, ?_⟩
      · simp [tkrzwGetLoop, hdb, hrec]
      · intro x hx
        rcases List.mem_cons.mp hx with rfl | hx
        · decide
        · exact ha x hx
    | some v =>
      by_cases hof : valsCap - voff < v.length
      · refine ⟨[], rest.length + 1, ?_, by simp⟩
        simp [tkrzwGetLoop, hdb, hof]
      · obtain ⟨a, m, hrec, ha⟩ := ih (koff + s) (voff + v.length)
        refine ⟨v.length :: a, m, ?_, ?_⟩
        · simp [tkrzwGetLoop, hdb, hof, hrec]
        · intro x hx
          rcases List.mem_cons.mp hx with rfl | hx
          · exact Nat.ne_of_lt
              (lt_of_le_of_lt (le_trans (Nat.le_of_not_lt hof)
                (Nat.sub_le valsCap voff)) hcap)
          · exact ha x hx

/-- C6 counterexample: a packed listing that overflows at the first key and
then exhausts the database stamps the trailing unconsumed slot NO_MORE_KEYS,
not SIZE_TOO_SMALL; so a later slot of the stream can differ from
SIZE_TOO_SMALL. -/
theorem c6_trailing_no_more_keys :
    (setListKeys [[97], [98, 98]] 0 [] trueFilter 0 3).2.2 =
      [SIZE_TOO_SMALL, SIZE_TOO_SMALL, NO_MORE_KEYS] ∧
    NO_MORE_KEYS ≠ SIZE_TOO_SMALL := by
  decide

/-- C6 amended: in a packed stream, slots are monotone after overflow up to
trailing exhaustion padding: a listKeys size array is a prefix of ordinary
lengths (all below the sentinel band) followed by a run of SIZE_TOO_SMALL
followed by a run of NO_MORE_KEYS; after the overflow no further bytes are
written (the loop with the buf_too_small flag set emits no bytes); and for
the packed tkrzw get, once a slot is SIZE_TOO_SMALL every later slot of the
stream is SIZE_TOO_SMALL, with no trailing padding. -/
theorem c6_amended_packed_overflow (db : List Key) (mode : Nat)
    (fromKey : Key) (filt : KVFilter) (keysCap max : Nat)
    (dbm : Key → Option Bytes) (keys : Bytes) (ksizes : List Nat)
    (valsCap : Nat) (hcapL : keysCap < NO_MORE_KEYS)
    (hcapG : valsCap < SIZE_TOO_SMALL) :
    (∃ a m p, (setListKeys db mode fromKey filt keysCap max).2.2 =
      a ++ List.replicate m SIZE_TOO_SMALL ++ List.replicate p NO_MORE_KEYS ∧
      ∀ x ∈ a, x ≠ SIZE_TOO_SMALL ∧ x ≠ NO_MORE_KEYS) ∧
    (∀ (rest : List Key) (i off : Nat),
      (listKeysLoop mode filt keysCap max rest i off true).2 = []) ∧
    (∃ a m, (tkrzwGet dbm keys ksizes valsCap).2.2 =
      a ++ List.replicate m SIZE_TOO_SMALL ∧
      ∀ x ∈ a, x ≠ SIZE_TOO_SMALL) := by
  refine ⟨?_, ?_, ?_⟩
  · obtain ⟨a, m, out, hrec, ha⟩ := listKeysLoop_shape mode filt keysCap max
      hcapL (if fromKey.length == 0 then db
        else if hasMode mode modeInclusive then lowerBound db fromKey
        else upperBound db fromKey) 0 0
    refine ⟨a, m, max - (a ++ List.replicate m SIZE_TOO_SMALL).length, ?_, ?_⟩
    · have hrec' := hrec
      simp only [beq_iff_eq, List.length_eq_zero] at hrec'
      simp [setListKeys, hrec', List.append_assoc]
    · intro x hx
      have hlt := ha x hx
      have hns : NO_MORE_KEYS < SIZE_TOO_SMALL := by decide
      exact ⟨Nat.ne_of_lt (lt_trans hlt hns), Nat.ne_of_lt hlt⟩
  · intro rest i off
    obtain ⟨m, hm⟩ := listKeysLoop_after_overflow mode filt keysCap max rest
      i off
    rw [hm]
  · obtain ⟨a, m, hrec, ha⟩ := tkrzwGetLoop_shape dbm keys valsCap hcapG
      ksizes 0 0
    exact ⟨a, m, by simp [tkrzwGet, hrec], ha⟩

/-- C6 witness: the amended shape at a concrete overflowing listing and a
concrete overflowing get. -/
theorem c6_amended_witness :
    (∃ a m p, (setListKeys [[97], [98, 98]] 0 [] trueFilter 0 3).2.2 =
      a ++ List.replicate m SIZE_TOO_SMALL ++ List.replicate p NO_MORE_KEYS ∧
      ∀ x ∈ a, x ≠ SIZE_TOO_SMALL ∧ x ≠ NO_MORE_KEYS) ∧
    (∃ a m, (tkrzwGet (fun k => if k == [97] then some [1, 2, 3] else none)
      [97, 98, 97] [1, 1, 1] 4).2.2 =
      a ++ List.replicate m SIZE_TOO_SMALL ∧
      ∀ x ∈ a, x ≠ SIZE_TOO_SMALL) := by
  have h := c6_amended_packed_overflow [[97], [98, 98]] 0 [] trueFilter 0 3
    (fun k => if k == [97] then some [1, 2, 3] else none) [97, 98, 97]
    [1, 1, 1] 4 (by decide) (by decide)
  exact ⟨h.1, h.2.2⟩

theorem listKeysLoop_ignore_keep_last (keysCap max : Nat)
    (hcap : keysCap < SIZE_TOO_SMALL) :
    ∀ (rest : List Key) (i off : Nat), i < max → rest ≠ [] →
    (lastKey (rest.take (min (max - i) rest.length))).length ≤ keysCap - off →
    listKeysLoop (modeIgnoreKeys ||| modeKeepLast) trueFilter keysCap max
        rest i off false =
      (List.replicate (min (max - i) rest.length - 1) 0 ++
        [(lastKey (rest.take (min (max - i) rest.length))).length],
       lastKey (rest.take (min (max - i) rest.length))) := by
  have tf1 : ∀ k, trueFilter.check k = true := fun _ => rfl
  have tf3 : trueFilter.fsize = 0 := rfl
  have m2 : hasMode (modeIgnoreKeys ||| modeKeepLast) modeIgnoreKeys = true :=
    by decide
  have m3 : hasMode (modeIgnoreKeys ||| modeKeepLast) modeNoPre = false :=
    by decide
  have m1 : hasMode (modeIgnoreKeys ||| modeKeepLast) modeKeepLast = true :=
    by decide
  intro rest
  induction rest with
  | nil => intro i off hi hne hfit; exact absurd rfl hne
  | cons key tail ih =>
    intro i off hi hne hfit
    by_cases hlast : i + 1 = max ∨ tail = []
    · have hn : min (max - i) (key :: tail).length = 1 := by
        rcases hlast with h | h
        · simp; omega
        · subst h; simp; omega
      rw [hn] at hfit ⊢
      simp only [List.take_succ_cons, List.take_zero] at hfit ⊢
      have hkey : lastKey [key] = key := rfl
      rw [hkey] at hfit ⊢
      have hil : (hasMode (modeIgnoreKeys ||| modeKeepLast) modeKeepLast &&
          ((i + 1 == max) || tail.isEmpty)) = true := by
        rw [m1]
        rcases hlast with h | h
        · simp [h]
        · simp [h]
      have hfi : ¬ (keysCap - off < key.length) := by omega
      have hbeq : (key.length == SIZE_TOO_SMALL) = false := by
        have hl : key.length < SIZE_TOO_SMALL := by omega
        simp [Nat.ne_of_lt hl]
      have hrest : listKeysLoop (modeIgnoreKeys ||| modeKeepLast) trueFilter
          keysCap max tail (i + 1) (off + key.length) false = ([], []) := by
        rcases hlast with h | h
        · cases tail with
          | nil => rfl
          | cons b l => simp [listKeysLoop, h]
        · subst h; rfl
      simp [listKeysLoop, Nat.not_le.mpr hi, tf1, tf3, keyCopyF, keyCopy,
        m2, m3, hil, hfi, hbeq, hrest]
      simp [m1, hrest]
      intro he
      have hl : key.length < SIZE_TOO_SMALL := by
        have h1 : key.length ≤ keysCap :=
          le_trans (Nat.le_of_not_lt hfi) (Nat.sub_le _ _)
        omega
      exact absurd he (Nat.ne_of_lt hl)
    · push_neg at hlast
      obtain ⟨hi1, htne⟩ := hlast
      have hi1' : i + 1 < max := by omega
      have htl : 1 ≤ tail.length := List.length_pos.mpr htne
      have hn : min (max - i) (key :: tail).length =
          min (max - (i + 1)) tail.length + 1 := by
        simp; omega
      rw [hn] at hfit ⊢
      rw [List.take_succ_cons] at hfit ⊢
      have htk : tail.take (min (max - (i + 1)) tail.length) ≠ [] := by
        have hmin1 : 1 ≤ min (max - (i + 1)) tail.length := by omega
        cases h : tail.take (min (max - (i + 1)) tail.length) with
        | nil =>
          have hl0 : (tail.take (min (max - (i + 1)) tail.length)).length = 0 := by
            rw [h]; rfl
          rw [List.length_take] at hl0
          omega
        | cons b l => simp
      have hlk : lastKey (key :: tail.take (min (max - (i + 1)) tail.length)) =
          lastKey (tail.take (min (max - (i + 1)) tail.length)) := by
        cases h : tail.take (min (max - (i + 1)) tail.length) with
        | nil => exact absurd h htk
        | cons b l => rfl
      rw [hlk] at hfit ⊢
      have hil : (hasMode (modeIgnoreKeys ||| modeKeepLast) modeKeepLast &&
          ((i + 1 == max) || tail.isEmpty)) = false := by
        have hb1 : (i + 1 == max) = false := by simp; omega
        have hb2 : tail.isEmpty = false := by
          cases tail with
          | nil => exact absurd rfl htne
          | cons b l => rfl
        rw [m1, hb1, hb2]
        rfl
      have hbeq0 : ((0 : Nat) == SIZE_TOO_SMALL) = false := by decide
      have ihx := ih (i + 1) off hi1' htne hfit
      have hrep : min (max - (i + 1)) tail.length + 1 - 1 =
          (min (max - (i + 1)) tail.length - 1) + 1 := by omega
      rw [hrep]
      rw [List.replicate_succ]
      simp [listKeysLoop, Nat.not_le.mpr hi, tf1, tf3, keyCopyF, keyCopy,
        m2, m3, hil, hbeq0, ihx]

/-- C8 counterexample: with IGNORE_KEYS|KEEP_LAST and a filter that accepts
only the key "a" of the database {"a","bb"}, the listing returns exactly one
element — its final returned element — as a 0-length placeholder (set.cpp
computes is_last from `i+1 == max || next == end`, and the successor "bb",
although filtered out, makes both tests fail); the claim requires the final
returned element's bytes (1 byte) to be copied in full. -/
theorem c8_filtered_final_dropped :
    setListKeys [[97], [98, 98]] (modeIgnoreKeys ||| modeKeepLast) []
      ⟨fun k => k == [97], fun _ => false, 0⟩ 10 5 =
      (Status.OK, [],
        [0, NO_MORE_KEYS, NO_MORE_KEYS, NO_MORE_KEYS, NO_MORE_KEYS]) ∧
    (0 : Nat) ≠ ([97] : Key).length := by
  decide

/-- C8 amended: with IGNORE_KEYS and KEEP_LAST both set and an always-true
filter, an ordered packed listing emits every returned element as a
0-length placeholder except the last returned one, whose key bytes are
copied in full (given room for that key); trailing slots are NO_MORE_KEYS. -/
theorem c8_amended_keep_last (db : List Key) (keysCap max : Nat)
    (hcap : keysCap < SIZE_TOO_SMALL) (hne : db ≠ []) (hmax : 1 ≤ max)
    (hfit : (lastKey (db.take (min max db.length))).length ≤ keysCap) :
    setListKeys db (modeIgnoreKeys ||| modeKeepLast) [] trueFilter keysCap
        max =
      (Status.OK, lastKey (db.take (min max db.length)),
        List.replicate (min max db.length - 1) 0 ++
          [(lastKey (db.take (min max db.length))).length] ++
          List.replicate (max - min max db.length) NO_MORE_KEYS) := by
  have hloop := listKeysLoop_ignore_keep_last keysCap max hcap db 0 0
    (by omega) hne (by simpa using hfit)
  rw [show max - 0 = max from rfl] at hloop
  have hlen : min max db.length - 1 + 1 = min max db.length := by
    have : 1 ≤ db.length := List.length_pos.mpr hne
    omega
  simp only [setListKeys]
  simp [hloop, hlen, List.append_assoc]

/-- C8 witness: listing {"a","bb","c"} with two slots under
IGNORE_KEYS|KEEP_LAST returns a placeholder and then the full "bb". -/
theorem c8_amended_witness :
    setListKeys [[97], [98, 98], [99]] (modeIgnoreKeys ||| modeKeepLast) []
      trueFilter 10 2 = (Status.OK, [98, 98], [0, 2]) := by
  have h := c8_amended_keep_last [[97], [98, 98], [99]] 10 2 (by decide)
    (by decide) (by decide) (by decide)
  exact h.trans (by decide)

end Yokan
